import Mathlib

/-!
Verification development for the ETL pipeline server (`src/client/App.jsx`,
server section).  The pipeline extracts CSV rows, transforms them
(deduplication by `Customer Id`, date normalization, email validation,
phone cleaning, aggregation), and loads them into a six-table MySQL
schema inside one transaction.

Records are modelled as structures whose fields correspond to the CSV
columns used by the code: `Customer Id`, `First Name`, `Last Name`,
`City`, `Country`, `Email`, `Phone 1`, `Phone 2`, `Subscription Date`,
`Company`, `Website`.
-/

namespace ETL

/-- A CSV row / record, one string per column the pipeline touches.
Field `customerId` is the column `Customer Id`, `phone1` is `Phone 1`,
`subscriptionDate` is `Subscription Date`, and so on. -/
structure Customer where
  customerId : String
  firstName : String
  lastName : String
  city : String
  country : String
  email : String
  phone1 : String
  phone2 : String
  subscriptionDate : String
  company : String
  website : String
  deriving DecidableEq, Repr

/-! ### Extraction (per-row part of `extractData`)

`extractData` streams the CSV and, for each row, replaces every field
that is falsy or whitespace-only by the sentinel `N/A`
(`if (!data[key] || data[key].trim() === '') data[key] = 'N/A'`).
The file I/O and status updates are outside the model; the row-level
cleaning is modelled exactly.  JavaScript `trim` and Lean `String.trim`
agree on ASCII whitespace, which covers the inputs of interest. -/

/-- Split a character list at every occurrence of a separator
character, keeping empty pieces, exactly like the JS
`String.prototype.split` with a one-character separator (so
`"".split(c)` is `[""]` and `"a/".split('/')` is `["a", ""]`). -/
def splitOnChar (sep : Char) : List Char → List (List Char)
  | [] => [[]]
  | c :: cs =>
    let r := splitOnChar sep cs
    if c = sep then [] :: r
    else
      match r with
      | [] => [[c]]
      | h :: t => (c :: h) :: t

/-- Drop ASCII whitespace from both ends, as JS `trim` does on the
ASCII inputs of interest. -/
def trimChars (l : List Char) : List Char :=
  ((l.dropWhile Char.isWhitespace).reverse.dropWhile Char.isWhitespace).reverse

/-- One field of `extractData`'s row handler: empty-after-trim becomes
the sentinel `N/A` (the JS falsy check on a string is subsumed by the
trim check). -/
def fillMissing (s : String) : String :=
  if trimChars s.data = [] then "N/A" else s

/-- `extractData`'s row handler applied to every column of a row. -/
def fillMissingFields (c : Customer) : Customer :=
  { customerId := fillMissing c.customerId
    firstName := fillMissing c.firstName
    lastName := fillMissing c.lastName
    city := fillMissing c.city
    country := fillMissing c.country
    email := fillMissing c.email
    phone1 := fillMissing c.phone1
    phone2 := fillMissing c.phone2
    subscriptionDate := fillMissing c.subscriptionDate
    company := fillMissing c.company
    website := fillMissing c.website }

/-- The extraction buffer: every parsed row, in source order, with
missing fields filled (`results.push(data)` in `extractData`). -/
def extractRows (rows : List Customer) : List Customer :=
  rows.map fillMissingFields

/-! ### Transformation (`transformData`) -/

/-- JavaScript `s.padStart(2, '0')`: pad on the left with zeros up to
length 2; strings already of length ≥ 2 are unchanged. -/
def padStart2 (s : String) : String :=
  if s.length ≥ 2 then s else String.mk (List.replicate (2 - s.length) '0') ++ s

/-- Date normalization step of `transformData`: if the value is not the
sentinel and splits on `/` into exactly three parts, rewrite
`M/D/YYYY`-shaped input to `YYYY-MM-DD` (the code checks only
`dateParts.length === 3`, nothing about the parts being numeric). -/
def normalizeDate (s : String) : String :=
  if s = "N/A" then s
  else
    match (splitOnChar '/' s.data).map String.mk with
    | [m, d, y] => y ++ "-" ++ padStart2 m ++ "-" ++ padStart2 d
    | _ => s

/-- Characters allowed in a dot-separated segment of the local part of
an email (model of the third-party `validator.isEmail` default
check, restricted to ASCII input without quoted locals). -/
def isEmailUserChar (c : Char) : Bool :=
  c.isAlphanum || c = '!' || c = '#' || c = '$' || c = '%' || c = '&' ||
  c = '*' || c = '+' || c = '-' || c = '/' || c = '=' || c = '?' ||
  c = '^' || c = '_' || c = '~'

/-- Local part of an email: nonempty dot-separated segments of allowed
characters. -/
def isEmailLocal (l : List Char) : Bool :=
  (splitOnChar '.' l).all fun p => !p.isEmpty && p.all isEmailUserChar

/-- One label of a fully qualified domain name: nonempty, at most 63
characters, alphanumeric or hyphen, no leading or trailing hyphen. -/
def isFQDNLabel (l : List Char) : Bool :=
  match l with
  | [] => false
  | c :: cs =>
    (c :: cs).length ≤ 63 && (c :: cs).all (fun x => x.isAlphanum || x = '-') &&
    c ≠ '-' && cs.getLastD c ≠ '-'

/-- Fully qualified domain name: at least two labels, each valid, and
an alphabetic top-level domain of length ≥ 2. -/
def isFQDN (l : List Char) : Bool :=
  let labels := splitOnChar '.' l
  labels.length ≥ 2 && labels.all isFQDNLabel &&
  (match labels.getLast? with
   | some tld => tld.length ≥ 2 && tld.all Char.isAlpha
   | none => false)

/-- Join character lists with a separator character, the inverse of
`splitOnChar` on separator-free pieces. -/
def joinSep (sep : Char) : List (List Char) → List Char
  | [] => []
  | [x] => x
  | x :: xs => x ++ sep :: joinSep sep xs

/-- Model of the third-party `validator.isEmail` with default options
(the email check called by `transformData`): split at the last `@`,
validate the local part and require the domain to be an FQDN.  Display
names, quoted locals, IP domains and non-ASCII forms are outside the
model; every string the claims evaluate is covered faithfully. -/
def isEmail (s : String) : Bool :=
  let parts := splitOnChar '@' s.data
  match parts.getLast?, parts.dropLast with
  | some domain, u :: us => isEmailLocal (joinSep '@' (u :: us)) && isFQDN domain
  | _, _ => false

/-- Phone cleaning step of `transformData`:
`phone.replace(/[^0-9+]/g, '')` keeps exactly the ASCII digits and the
plus signs, wherever they occur, and deletes every other character. -/
def cleanPhone (s : String) : String :=
  String.mk (s.data.filter fun c => c.isDigit || c = '+')

/-- The per-record mutation performed by `transformData` on a
non-duplicate record: normalize the subscription date, tag invalid
emails with the `Invalid Email - ` marker, clean both phone columns.
The remaining columns are untouched. -/
def transformRecord (c : Customer) : Customer :=
  { c with
    subscriptionDate := normalizeDate c.subscriptionDate
    email := if isEmail c.email then c.email else "Invalid Email - " ++ c.email
    phone1 := cleanPhone c.phone1
    phone2 := cleanPhone c.phone2 }

/-- Accumulator state of `transformData`'s loop: the key lists of the
JS `Map`s `uniqueCustomers`, `uniqueCompanies` and `countryCounts`
(JS `Map` iterates keys in insertion order), the output array
`formattedData`, and `duplicateCount`. -/
structure TransformState where
  seen : List String
  companies : List String
  countryCounts : List (String × Nat)
  formattedData : List Customer
  duplicateCount : Nat
  deriving DecidableEq, Repr

/-- `uniqueCompanies.set(name, null)` guarded by `name !== 'N/A'`:
insert the key at the end if it is new, keep the map unchanged
otherwise. -/
def addCompany (ks : List String) (k : String) : List String :=
  if k = "N/A" then ks
  else if k ∈ ks then ks else ks ++ [k]

/-- Bump the entry of a key in an association list with unique keys
(a JS `Map` keyed by country): increment the unique existing entry in
place, or append the key at the end with count 1. -/
def bumpCountry (k : String) : List (String × Nat) → List (String × Nat)
  | [] => [(k, 1)]
  | p :: ps => if p.1 = k then (p.1, p.2 + 1) :: ps else p :: bumpCountry k ps

/-- `countryCounts.set(country, (countryCounts.get(country) || 0) + 1)`
guarded by `country !== 'N/A'`. -/
def addCountry (m : List (String × Nat)) (k : String) : List (String × Nat) :=
  if k = "N/A" then m else bumpCountry k m

/-- The body of `batch.forEach((customer) => ...)` in `transformData`:
skip and count a record whose `Customer Id` was already seen; otherwise
mark it seen, apply `transformRecord`, track its company and country,
and append it to the output. -/
def stepRecord (st : TransformState) (c : Customer) : TransformState :=
  if st.seen.contains c.customerId then
    { st with duplicateCount := st.duplicateCount + 1 }
  else
    let c2 := transformRecord c
    { seen := st.seen ++ [c.customerId]
      companies := addCompany st.companies c2.company
      countryCounts := addCountry st.countryCounts c2.country
      formattedData := st.formattedData ++ [c2]
      duplicateCount := st.duplicateCount }

/-- The empty accumulator state at the top of `transformData`. -/
def initState : TransformState :=
  { seen := []
    companies := []
    countryCounts := []
    formattedData := []
    duplicateCount := 0 }

/-- Fuel-indexed splitting of a list into consecutive slices of `n`
elements; with `fuel ≥ l.length` and `n > 0` this is exactly the slice
sequence of the JS loop `for (i = 0; i < len; i += n) slice(i, i+n)`. -/
def chunksAux (fuel n : Nat) (l : List α) : List (List α) :=
  match fuel, l with
  | _, [] => []
  | 0, l => [l]
  | fuel + 1, l => l.take n :: chunksAux fuel n (l.drop n)

/-- The batch slices processed by the chunked loops of the pipeline
(`data.slice(i, i + batchSize)` for `i = 0, n, 2n, ...`). -/
def chunks (n : Nat) (l : List α) : List (List α) :=
  chunksAux l.length n l

/-- Folding the record step over the whole input at once. -/
def runTransform (st : TransformState) (l : List Customer) : TransformState :=
  l.foldl stepRecord st

/-- Folding the record step batch by batch, as `transformData`'s
`for` loop does. -/
def runTransformChunked (n : Nat) (st : TransformState) (l : List Customer) :
    TransformState :=
  (chunks n l).foldl (fun s batch => batch.foldl stepRecord s) st

/-- Render a natural number below 100 with two digits. -/
def pad2Nat (k : Nat) : String :=
  if k < 10 then "0" ++ toString k else toString k

/-- Model of the JS computation
`(totalCustomers / countryCounts.size).toFixed(2)` on natural counts:
a zero denominator yields `NaN` (0/0) or `Infinity` (n/0) exactly as JS
division does, and otherwise the quotient is rounded half-up to two
decimals, which agrees with `Number.prototype.toFixed` whenever the
double arithmetic is exact (it is on every value the claims touch). -/
def divToFixed2 (a b : Nat) : String :=
  if b = 0 then (if a = 0 then "NaN" else "Infinity")
  else
    let n := (200 * a + b) / (2 * b)
    toString (n / 100) ++ "." ++ pad2Nat (n % 100)

/-- The value `transformData` returns (plus the two pieces of final
state the spec talks about: the duplicate count, reported via the log
line `Removed N duplicate entries`, and the country-count map). -/
structure TransformResult where
  formattedData : List Customer
  uniqueCompanies : List String
  avgCustomersPerCountry : String
  duplicateCount : Nat
  countryCounts : List (String × Nat)
  deriving DecidableEq, Repr

/-- `transformData` with an explicit batch size: run the chunked loop,
then compute `avgCustomersPerCountry = totalCustomers / countryCounts.size`
formatted with `toFixed(2)`. -/
def transformDataWith (n : Nat) (data : List Customer) : TransformResult :=
  let st := runTransformChunked n initState data
  { formattedData := st.formattedData
    uniqueCompanies := st.companies
    avgCustomersPerCountry := divToFixed2 st.formattedData.length st.countryCounts.length
    duplicateCount := st.duplicateCount
    countryCounts := st.countryCounts }

/-- `transformData` as in the source, with its batch size 1000. -/
def transformData (data : List Customer) : TransformResult :=
  transformDataWith 1000 data

/-- `transformData` applied to the whole input as a single chunk. -/
def transformDataSingle (data : List Customer) : TransformResult :=
  let st := runTransform initState data
  { formattedData := st.formattedData
    uniqueCompanies := st.companies
    avgCustomersPerCountry := divToFixed2 st.formattedData.length st.countryCounts.length
    duplicateCount := st.duplicateCount
    countryCounts := st.countryCounts }

/-! ### The database and the Loader (`loadData`)

The six-table MySQL schema is modelled as lists of rows.  Dependent
tables carry their payload columns; their auto-increment surrogate keys
play no role in any claim and are not modelled.  `loadData` runs inside
one transaction: we model it as an `Except` computation over a working
copy of the database, where every SQL round-trip is a numbered query
that a fault oracle may make throw (this also covers constraint
errors raised by MySQL itself); `commit` publishes the working copy and
any error rolls back to the initial state, as `connection.rollback()`
does. -/

/-- One row of the `Customers` table. -/
structure CustomerRow where
  customer_id : String
  first_name : String
  last_name : String
  city : String
  country : String
  email : String
  deriving DecidableEq, Repr

/-- The relational store: `Customers`, `Contacts (customer_id,
phone_number)`, `Subscriptions (customer_id, subscription_date)`,
`Companies (company_id, company_name)`, `Customer_Companies`,
`Websites (customer_id, website_url)`, plus the auto-increment counter
of `Companies`. -/
structure DBState where
  customers : List CustomerRow
  contacts : List (String × String)
  subscriptions : List (String × String)
  companies : List (Nat × String)
  customerCompanies : List (String × Nat)
  websites : List (String × String)
  nextCompanyId : Nat
  deriving DecidableEq, Repr

/-- One value row of `INSERT IGNORE INTO Companies (company_name)`:
a name whose `UNIQUE` column already exists is ignored, a new name is
appended with a fresh surrogate id. -/
def insertCompanyIgnore (db : DBState) (name : String) : DBState :=
  if db.companies.any (fun r => r.2 = name) then db
  else
    { db with
      companies := db.companies ++ [(db.nextCompanyId, name)]
      nextCompanyId := db.nextCompanyId + 1 }

/-- The whole `INSERT IGNORE` statement over `uniqueCompanies`. -/
def insertCompaniesIgnore (names : List String) (db : DBState) : DBState :=
  names.foldl insertCompanyIgnore db

/-- `SELECT company_id, company_name FROM Companies` followed by
`companyRows.forEach(row => companyIdMap.set(row.company_name,
row.company_id))`. -/
def companyMapOf (db : DBState) : List (String × Nat) :=
  db.companies.map fun r => (r.2, r.1)

/-- One value row of the customer insert
`INSERT INTO Customers ... ON DUPLICATE KEY UPDATE email =
VALUES(email)`.  The table has two unique keys: the primary key
`customer_id` and the `UNIQUE` column `email`.  A row conflicting on
the primary key updates that row's email; otherwise a row conflicting
on the email unique key updates that row's email (a no-op value-wise)
and inserts nothing; a conflict-free row is appended. -/
def upsertCustomer (rows : List CustomerRow) (r : CustomerRow) : List CustomerRow :=
  if rows.any (fun x => x.customer_id = r.customer_id) then
    rows.map fun x =>
      if x.customer_id = r.customer_id then { x with email := r.email } else x
  else if rows.any (fun x => x.email = r.email) then
    rows.map fun x => if x.email = r.email then { x with email := r.email } else x
  else rows ++ [r]

/-- The customer value row built by `formattedData.map(c => [...])`. -/
def custRow (c : Customer) : CustomerRow :=
  { customer_id := c.customerId
    first_name := c.firstName
    last_name := c.lastName
    city := c.city
    country := c.country
    email := c.email }

/-- The four dependent-row arrays `contactInserts`,
`subscriptionInserts`, `customerCompanyInserts`, `websiteInserts`. -/
structure Deps where
  contacts : List (String × String)
  subscriptions : List (String × String)
  customerCompanies : List (String × Nat)
  websites : List (String × String)
  deriving DecidableEq, Repr

/-- The body of `formattedData.forEach(c => ...)` in `loadData`: a
record whose id is not in the re-queried membership set is skipped
entirely; otherwise push a contact row per phone column that is not
`N/A`, a subscription row if the date is not `N/A`, a company link if
the company is not `N/A` and is a key of the company id map, and a
website row if the website is not `N/A`. -/
def depStep (existingIds : List String) (cmap : List (String × Nat))
    (d : Deps) (c : Customer) : Deps :=
  if existingIds.contains c.customerId then
    { contacts := d.contacts ++
        (if c.phone1 ≠ "N/A" then [(c.customerId, c.phone1)] else []) ++
        (if c.phone2 ≠ "N/A" then [(c.customerId, c.phone2)] else [])
      subscriptions := d.subscriptions ++
        (if c.subscriptionDate ≠ "N/A" then [(c.customerId, c.subscriptionDate)] else [])
      customerCompanies := d.customerCompanies ++
        (if c.company ≠ "N/A" then
          match cmap.lookup c.company with
          | some cid => [(c.customerId, cid)]
          | none => []
        else [])
      websites := d.websites ++
        (if c.website ≠ "N/A" then [(c.customerId, c.website)] else []) }
  else d

/-- Build all four dependent arrays from the cleaned records. -/
def buildDependents (existingIds : List String) (cmap : List (String × Nat))
    (l : List Customer) : Deps :=
  l.foldl (depStep existingIds cmap) ⟨[], [], [], []⟩

/-- A fault oracle: `fault q = true` makes the `q`-th SQL round-trip of
the transaction throw.  MySQL errors of any origin (connectivity,
constraint violations, malformed values) are modelled this way. -/
def Fault : Type := Nat → Bool

/-- A transaction in flight: the working copy of the store and the
number of queries already executed. -/
structure Tx where
  db : DBState
  qn : Nat
  deriving DecidableEq, Repr

/-- Execute one mutating query inside the transaction, unless the
fault oracle makes it throw. -/
def txStep (fault : Fault) (f : DBState → DBState) (t : Tx) : Except Unit Tx :=
  if fault t.qn then Except.error ()
  else Except.ok { db := f t.db, qn := t.qn + 1 }

/-- Execute one reading query inside the transaction, unless the fault
oracle makes it throw. -/
def txRead (fault : Fault) (g : DBState → α) (t : Tx) : Except Unit (α × Tx) :=
  if fault t.qn then Except.error ()
  else Except.ok (g t.db, { t with qn := t.qn + 1 })

/-- `insertInBatches(query, data, name)`: nothing at all on empty data,
otherwise one query per slice of 1000 value rows.  The progress-log
side effects are outside the model. -/
def insertBatches (fault : Fault) (ins : DBState → List α → DBState)
    (data : List α) (t : Tx) : Except Unit Tx :=
  (chunks 1000 data).foldlM (fun t b => txStep fault (fun db => ins db b) t) t

/-- The transactional body of `loadData`, from `beginTransaction` to
`commit`: companies, company id map, batched customer upserts,
re-query of persisted customer ids, dependent-row building, four
batched dependent inserts, commit. -/
def loadDataTx (fault : Fault) (input : TransformResult) (t : Tx) :
    Except Unit Tx := do
  let t ← if 0 < input.uniqueCompanies.length then
      txStep fault (insertCompaniesIgnore input.uniqueCompanies) t
    else pure t
  let (companyIdMap, t) ← if 0 < input.uniqueCompanies.length then
      txRead fault companyMapOf t
    else pure ([], t)
  let customerInserts := input.formattedData.map custRow
  let t ← insertBatches fault
      (fun db b => { db with customers := b.foldl upsertCustomer db.customers })
      customerInserts t
  let (existingIds, t) ← txRead fault (fun db => db.customers.map fun r => r.customer_id) t
  let deps := buildDependents existingIds companyIdMap input.formattedData
  let t ← insertBatches fault (fun db b => { db with contacts := db.contacts ++ b })
      deps.contacts t
  let t ← insertBatches fault
      (fun db b => { db with subscriptions := db.subscriptions ++ b })
      deps.subscriptions t
  let t ← insertBatches fault
      (fun db b => { db with customerCompanies := db.customerCompanies ++ b })
      deps.customerCompanies t
  let t ← insertBatches fault (fun db b => { db with websites := db.websites ++ b })
      deps.websites t
  txStep fault id t

/-- What `loadData` resolves with; `notified` records the stage label
of the failure email sent through the notifier, if any. -/
structure LoadResult where
  success : Bool
  message : String
  notified : Option String
  deriving DecidableEq, Repr

/-- `loadData`: run the transactional body; on success commit the
working copy, on any exception roll the store back to its initial
state, notify with stage label `Loading`, and resolve with
`{success: false}`. -/
def loadData (fault : Fault) (input : TransformResult) (db : DBState) :
    DBState × LoadResult :=
  match loadDataTx fault input { db := db, qn := 0 } with
  | Except.ok t =>
    (t.db, { success := true
             message := "Data loaded into database in batches"
             notified := none })
  | Except.error _ =>
    (db, { success := false
           message := "Error loading data"
           notified := some "Loading" })

/-- The pure effect of a successful `loadData` run on the store:
companies inserted with conflict-ignore, customers upserted row by
row, dependents of records whose ids persisted appended. -/
def applyLoad (input : TransformResult) (db : DBState) : DBState :=
  let db1 := if 0 < input.uniqueCompanies.length then
      insertCompaniesIgnore input.uniqueCompanies db
    else db
  let cmap := if 0 < input.uniqueCompanies.length then companyMapOf db1 else []
  let db2 := { db1 with
    customers := (input.formattedData.map custRow).foldl upsertCustomer db1.customers }
  let existingIds := db2.customers.map fun r => r.customer_id
  let deps := buildDependents existingIds cmap input.formattedData
  { db2 with
    contacts := db2.contacts ++ deps.contacts
    subscriptions := db2.subscriptions ++ deps.subscriptions
    customerCompanies := db2.customerCompanies ++ deps.customerCompanies
    websites := db2.websites ++ deps.websites }

/-! ### Specification-side characterizations

These definitions restate, in direct form, what the spec says the code
computes; the theorems below relate them to the source-derived
definitions above. -/

/-- The subsequence of records that are the first occurrence of their
`Customer Id`, given ids already seen. -/
def firstOccAux (seen : List String) : List Customer → List Customer
  | [] => []
  | c :: cs =>
    if c.customerId ∈ seen then firstOccAux seen cs
    else c :: firstOccAux (seen ++ [c.customerId]) cs

/-- The first occurrence of each distinct `Customer Id`, in input
order: the records the dedup step keeps. -/
def firstOccurrences (l : List Customer) : List Customer :=
  firstOccAux [] l

/-- The contact rows an accepted cleaned record should generate: one
per phone column that is not the sentinel. -/
def contactRows (c : Customer) : List (String × String) :=
  (if c.phone1 ≠ "N/A" then [(c.customerId, c.phone1)] else []) ++
  (if c.phone2 ≠ "N/A" then [(c.customerId, c.phone2)] else [])

/-- The subscription rows an accepted cleaned record should generate:
one if the date is not the sentinel. -/
def subscriptionRows (c : Customer) : List (String × String) :=
  if c.subscriptionDate ≠ "N/A" then [(c.customerId, c.subscriptionDate)] else []

/-- The company-link rows an accepted cleaned record should generate:
one if the company is not the sentinel and is a key of the company id
map. -/
def companyLinkRows (cmap : List (String × Nat)) (c : Customer) : List (String × Nat) :=
  if c.company ≠ "N/A" then
    match cmap.lookup c.company with
    | some cid => [(c.customerId, cid)]
    | none => []
  else []

/-- The website rows an accepted cleaned record should generate: one
if the website is not the sentinel. -/
def websiteRows (c : Customer) : List (String × String) :=
  if c.website ≠ "N/A" then [(c.customerId, c.website)] else []

/-! ### Concrete fixtures used by witnesses and counterexamples -/

/-- A record generator for the averaging instance: 20 distinct ids
spread over 5 distinct countries. -/
def mkCust (i : Nat) : Customer :=
  { customerId := "C" ++ toString i
    firstName := "F"
    lastName := "L"
    city := "X"
    country := "K" ++ toString (i % 5)
    email := "a@b.com"
    phone1 := "1"
    phone2 := "2"
    subscriptionDate := "N/A"
    company := "N/A"
    website := "N/A" }

/-- 20 records across 5 distinct countries. -/
def demo20 : List Customer := (List.range 20).map mkCust

/-- A record whose country is the sentinel: contributes no country. -/
def noCountryRec : Customer :=
  { mkCust 0 with country := "N/A" }

/-- A record whose phones are the sentinel `N/A`. -/
def phoneNARec : Customer :=
  { mkCust 0 with phone1 := "N/A", phone2 := "N/A" }

/-- A record whose subscription date has three non-numeric
`/`-separated parts. -/
def dateABCRec : Customer :=
  { mkCust 0 with subscriptionDate := "a/b/c" }

/-- A raw row whose email column is empty in the source. -/
def rawNoEmailRec : Customer :=
  { mkCust 0 with email := "" }

/-- A record with a well-formed `M/D/YYYY` subscription date. -/
def dateGoodRec : Customer :=
  { mkCust 0 with subscriptionDate := "3/27/2020" }

/-- A cleaned record exercising every dependent table. -/
def loadRec : Customer :=
  { customerId := "A1"
    firstName := "F"
    lastName := "L"
    city := "X"
    country := "US"
    email := "a@b.com"
    phone1 := "123"
    phone2 := "456"
    subscriptionDate := "2020-03-27"
    company := "Acme"
    website := "www.a.com" }

/-- A loader input with one cleaned record and one company. -/
def loadInput : TransformResult :=
  { formattedData := [loadRec]
    uniqueCompanies := ["Acme"]
    avgCustomersPerCountry := "1.00"
    duplicateCount := 0
    countryCounts := [("US", 1)] }

/-- The empty store. -/
def emptyDb : DBState :=
  { customers := []
    contacts := []
    subscriptions := []
    companies := []
    customerCompanies := []
    websites := []
    nextCompanyId := 1 }

/-- The fault-free oracle: no query throws. -/
def noFault : Fault := fun _ => false

/-- A fault oracle that makes the fifth query throw; on `loadInput`
over `emptyDb` this is the contacts insert, after the customer batch
insert (query 2) has already run inside the transaction. -/
def faultAt4 : Fault := fun n => n == 4

/-- A record accepted by the loader whose company is the sentinel. -/
def cexCompanyRec : Customer :=
  { mkCust 0 with customerId := "A1", company := "N/A" }

/-- A membership set accepting `cexCompanyRec`. -/
def cexIds : List String := ["A1"]

/-- A company id map in which the sentinel is a key (such a row can
pre-exist in the `Companies` table). -/
def cexMap : List (String × Nat) := [("N/A", 7)]

/-- The customer row of `loadRec` with a different email, as a second
load of the same customer id would submit it. -/
def rerunRow : CustomerRow :=
  { custRow loadRec with email := "x@y.org" }

end ETL

/-! ## Theorems -/

namespace ETL

theorem chunksAux_flatten {α : Type _} (n : Nat) (hn : 0 < n) :
    ∀ (fuel : Nat) (l : List α), l.length ≤ fuel → (chunksAux fuel n l).flatten = l := by
  intro fuel
  induction fuel with
  | zero =>
    intro l hl
    cases l with
    | nil => rfl
    | cons a as => simp at hl
  | succ fuel ih =>
    intro l hl
    cases l with
    | nil => rfl
    | cons a as =>
      show (((a :: as).take n) :: chunksAux fuel n ((a :: as).drop n)).flatten = a :: as
      rw [List.flatten_cons, ih ((a :: as).drop n) ?_, List.take_append_drop]
      have h1 : ((a :: as).drop n).length = (a :: as).length - n := List.length_drop n (a :: as)
      simp only [List.length_cons] at h1 hl ⊢
      omega

theorem chunks_flatten {α : Type _} (n : Nat) (hn : 0 < n) (l : List α) :
    (chunks n l).flatten = l :=
  chunksAux_flatten n hn l.length l le_rfl

theorem runTransformChunked_eq (n : Nat) (hn : 0 < n) (st : TransformState)
    (l : List Customer) : runTransformChunked n st l = runTransform st l := by
  unfold runTransformChunked runTransform
  conv_rhs => rw [← chunks_flatten n hn l]
  rw [List.foldl_flatten]

/-- C4: chunking invariance.  For every input sequence and every
positive chunk size, running `transformData` chunk by chunk produces
exactly the same result record (cleaned sequence, company set,
duplicate count, country counts, average per country) as processing
the whole sequence as one chunk. -/
theorem transform_chunking (n : Nat) (data : List Customer) (hn : 0 < n) :
    transformDataWith n data = transformDataSingle data := by
  unfold transformDataWith transformDataSingle
  rw [runTransformChunked_eq n hn]



theorem firstOccAux_length_le (l : List Customer) :
    ∀ seen, (firstOccAux seen l).length ≤ l.length := by
  induction l with
  | nil => intro seen; simp [firstOccAux]
  | cons c cs ih =>
    intro seen
    by_cases hc : c.customerId ∈ seen
    · simp only [firstOccAux, hc, if_true, List.length_cons]
      exact (ih seen).trans (Nat.le_succ _)
    · simp only [firstOccAux, hc, if_false, List.length_cons]
      exact Nat.succ_le_succ (ih _)

theorem runTransform_eq (l : List Customer) : ∀ st : TransformState,
    runTransform st l =
      { seen := st.seen ++ (firstOccAux st.seen l).map (fun c => c.customerId)
        companies := ((firstOccAux st.seen l).map transformRecord).foldl
          (fun ks c => addCompany ks c.company) st.companies
        countryCounts := ((firstOccAux st.seen l).map transformRecord).foldl
          (fun m c => addCountry m c.country) st.countryCounts
        formattedData := st.formattedData ++ (firstOccAux st.seen l).map transformRecord
        duplicateCount := st.duplicateCount + (l.length - (firstOccAux st.seen l).length) } := by
  induction l with
  | nil => intro st; simp [runTransform, firstOccAux]
  | cons c cs ih =>
    intro st
    show runTransform (stepRecord st c) cs = _
    by_cases hc : c.customerId ∈ st.seen
    · have hstep : stepRecord st c = { st with duplicateCount := st.duplicateCount + 1 } := by
        simp [stepRecord, hc]
      rw [hstep, ih]
      have hle := firstOccAux_length_le cs st.seen
      simp only [firstOccAux, hc, if_true, List.length_cons, TransformState.mk.injEq,
        true_and, and_true]
      omega
    · have hstep : stepRecord st c =
        { seen := st.seen ++ [c.customerId]
          companies := addCompany st.companies (transformRecord c).company
          countryCounts := addCountry st.countryCounts (transformRecord c).country
          formattedData := st.formattedData ++ [transformRecord c]
          duplicateCount := st.duplicateCount } := by
        simp [stepRecord, hc]
      rw [hstep, ih]
      simp only [firstOccAux, hc, if_false, List.map_cons, List.foldl_cons,
        List.length_cons, TransformState.mk.injEq, List.append_assoc,
        List.singleton_append, true_and, and_true]
      omega


theorem map_customerId_transform (R : List Customer) :
    (R.map transformRecord).map (fun c => c.customerId) = R.map (fun c => c.customerId) := by
  rw [List.map_map]; rfl

theorem transformData_eq (data : List Customer) :
    transformData data =
      { formattedData := (firstOccurrences data).map transformRecord
        uniqueCompanies := ((firstOccurrences data).map transformRecord).foldl
          (fun ks c => addCompany ks c.company) []
        avgCustomersPerCountry := divToFixed2 (firstOccurrences data).length
          (((firstOccurrences data).map transformRecord).foldl
            (fun m c => addCountry m c.country) []).length
        duplicateCount := data.length - (firstOccurrences data).length
        countryCounts := ((firstOccurrences data).map transformRecord).foldl
          (fun m c => addCountry m c.country) [] } := by
  unfold transformData transformDataWith firstOccurrences
  rw [runTransformChunked_eq 1000 (by omega), runTransform_eq]
  simp [initState]

theorem firstOccAux_ids_spec (l : List Customer) : ∀ seen,
    ((firstOccAux seen l).map (fun c => c.customerId)).Nodup ∧
    (∀ id, id ∈ (firstOccAux seen l).map (fun c => c.customerId) ↔
      (id ∉ seen ∧ id ∈ l.map (fun c => c.customerId))) := by
  induction l with
  | nil => intro seen; simp [firstOccAux]
  | cons c cs ih =>
    intro seen
    by_cases hc : c.customerId ∈ seen
    · simp only [firstOccAux, hc, if_true]
      obtain ⟨h1, h2⟩ := ih seen
      refine ⟨h1, fun id => ?_⟩
      rw [h2 id]
      simp only [List.map_cons, List.mem_cons]
      constructor
      · rintro ⟨hn, hm⟩
        exact ⟨hn, Or.inr hm⟩
      · rintro ⟨hn, hm | hm⟩
        · exact absurd (hm ▸ hc) hn
        · exact ⟨hn, hm⟩
    · simp only [firstOccAux, hc, if_false, List.map_cons]
      obtain ⟨h1, h2⟩ := ih (seen ++ [c.customerId])
      constructor
      · rw [List.nodup_cons]
        refine ⟨fun hmem => ?_, h1⟩
        exact ((h2 _).1 hmem).1 (by simp)
      · intro id
        simp only [List.mem_cons, h2 id, List.mem_append, List.mem_singleton]
        constructor
        · rintro (rfl | ⟨hn, hm⟩)
          · exact ⟨hc, Or.inl rfl⟩
          · exact ⟨fun hs => hn (Or.inl hs), Or.inr hm⟩
        · rintro ⟨hn, rfl | hm⟩
          · exact Or.inl rfl
          · by_cases hid : id = c.customerId
            · exact Or.inl hid
            · refine Or.inr ⟨fun hs => ?_, hm⟩
              rcases hs with hs | hs
              · exact hn hs
              · simp only [List.mem_singleton, List.not_mem_nil, or_false] at hs
                exact hid hs

/-- C2: deduplication.  The cleaned output of `transformData` is the
transformation of exactly the first occurrence of each distinct
`Customer Id`, in input order; output ids are pairwise distinct and
cover exactly the input ids; the reported duplicate count equals the
number of discarded later repeats. -/
theorem claim_dedup (data : List Customer) :
    (transformData data).formattedData = (firstOccurrences data).map transformRecord ∧
    ((transformData data).formattedData.map (fun c => c.customerId)).Nodup ∧
    (∀ id, (id ∈ (transformData data).formattedData.map fun c => c.customerId) ↔
      id ∈ data.map fun c => c.customerId) ∧
    (transformData data).duplicateCount =
      data.length - (transformData data).formattedData.length := by
  obtain ⟨h1, h2⟩ := firstOccAux_ids_spec data []
  rw [transformData_eq data]
  refine ⟨rfl, ?_, ?_, ?_⟩
  · rw [map_customerId_transform]
    exact h1
  · intro id
    rw [map_customerId_transform]
    unfold firstOccurrences
    rw [h2 id]
    simp
  · simp


theorem mem_addCompany {ks : List String} {k k' : String} :
    k ∈ addCompany ks k' ↔ k ∈ ks ∨ (k' ≠ "N/A" ∧ k = k') := by
  unfold addCompany
  by_cases h1 : k' = "N/A"
  · simp [h1]
  · by_cases h2 : k' ∈ ks
    · simp only [h1, if_false, h2, if_true, ne_eq, not_false_iff, true_and]
      constructor
      · exact Or.inl
      · rintro (h | rfl)
        · exact h
        · exact h2
    · simp only [h1, if_false, h2, if_true, List.mem_append, List.mem_singleton, ne_eq,
        not_false_iff, true_and]

theorem nodup_addCompany {ks : List String} (k : String) (h : ks.Nodup) :
    (addCompany ks k).Nodup := by
  unfold addCompany
  by_cases h1 : k = "N/A"
  · simp [h1, h]
  · by_cases h2 : k ∈ ks
    · simp [h1, h2, h]
    · simp only [h1, if_false, h2, if_true]
      rw [List.nodup_append]
      exact ⟨h, List.nodup_singleton k, by simpa using h2⟩

theorem foldl_addCompany_spec (R : List Customer) : ∀ ks : List String, ks.Nodup →
    ((R.foldl (fun ks c => addCompany ks c.company) ks).Nodup ∧
     ∀ k, k ∈ R.foldl (fun ks c => addCompany ks c.company) ks ↔
       k ∈ ks ∨ (k ≠ "N/A" ∧ k ∈ R.map fun c => c.company)) := by
  induction R with
  | nil => intro ks h; simp [h]
  | cons c cs ih =>
    intro ks h
    rw [List.foldl_cons]
    obtain ⟨h1, h2⟩ := ih (addCompany ks c.company) (nodup_addCompany c.company h)
    refine ⟨h1, fun k => ?_⟩
    rw [h2 k, mem_addCompany]
    simp only [List.map_cons, List.mem_cons, ne_eq]
    constructor
    · rintro ((h | ⟨hna, rfl⟩) | ⟨hkna, hm⟩)
      · exact Or.inl h
      · exact Or.inr ⟨hna, Or.inl rfl⟩
      · exact Or.inr ⟨hkna, Or.inr hm⟩
    · rintro (h | ⟨hkna, rfl | hm⟩)
      · exact Or.inl (Or.inl h)
      · exact Or.inl (Or.inr ⟨hkna, rfl⟩)
      · exact Or.inr ⟨hkna, hm⟩

theorem sum_bumpCountry (k : String) (m : List (String × Nat)) :
    ((bumpCountry k m).map (fun p => p.2)).sum = ((m.map fun p => p.2).sum) + 1 := by
  induction m with
  | nil => simp [bumpCountry]
  | cons p ps ih =>
    by_cases h : p.1 = k
    · simp only [bumpCountry, h, if_true, List.map_cons, List.sum_cons]
      omega
    · simp only [bumpCountry, h, if_false, List.map_cons, List.sum_cons, ih]
      omega

theorem keys_bumpCountry (k : String) (m : List (String × Nat)) :
    (bumpCountry k m).map (fun p => p.1) =
      if k ∈ m.map (fun p => p.1) then m.map (fun p => p.1)
      else m.map (fun p => p.1) ++ [k] := by
  induction m with
  | nil => simp [bumpCountry]
  | cons p ps ih =>
    by_cases h : p.1 = k
    · simp [bumpCountry, h]
    · have hne : ¬ k = p.1 := fun hh => h hh.symm
      simp only [bumpCountry, h, if_false, List.map_cons, ih]
      by_cases h2 : k ∈ ps.map (fun p => p.1)
      · simp [List.mem_cons, hne, h2]
      · simp [List.mem_cons, hne, h2]

theorem foldl_addCountry_sum (R : List Customer) : ∀ m : List (String × Nat),
    (((R.foldl (fun m c => addCountry m c.country) m).map fun p => p.2).sum) =
      ((m.map fun p => p.2).sum) + (R.filter fun c => c.country ≠ "N/A").length := by
  induction R with
  | nil => intro m; simp
  | cons c cs ih =>
    intro m
    rw [List.foldl_cons, ih]
    by_cases h : c.country = "N/A"
    · simp [addCountry, h, List.filter_cons]
    · simp only [addCountry, h, if_false, List.filter_cons, sum_bumpCountry]
      simp [h]
      omega

theorem foldl_addCountry_keys (R : List Customer) : ∀ m : List (String × Nat),
    ((m.map fun p => p.1).Nodup) →
    (((R.foldl (fun m c => addCountry m c.country) m).map fun p => p.1).Nodup ∧
     ∀ k, (k ∈ (R.foldl (fun m c => addCountry m c.country) m).map fun p => p.1) ↔
       ((k ∈ m.map fun p => p.1) ∨ (k ≠ "N/A" ∧ k ∈ R.map fun c => c.country))) := by
  induction R with
  | nil => intro m h; simp [h]
  | cons c cs ih =>
    intro m h
    rw [List.foldl_cons]
    by_cases hc : c.country = "N/A"
    · have he : addCountry m c.country = m := by simp [addCountry, hc]
      rw [he]
      obtain ⟨h1, h2⟩ := ih m h
      refine ⟨h1, fun k => ?_⟩
      rw [h2 k]
      simp only [List.map_cons, List.mem_cons, ne_eq]
      constructor
      · rintro (h | ⟨hkna, hm⟩)
        · exact Or.inl h
        · exact Or.inr ⟨hkna, Or.inr hm⟩
      · rintro (h | ⟨hkna, rfl | hm⟩)
        · exact Or.inl h
        · exact absurd hc hkna
        · exact Or.inr ⟨hkna, hm⟩
    · have he : addCountry m c.country = bumpCountry c.country m := by
        simp [addCountry, hc]
      rw [he]
      have hkeys := keys_bumpCountry c.country m
      have hnd : ((bumpCountry c.country m).map fun p => p.1).Nodup := by
        rw [hkeys]
        by_cases h2 : c.country ∈ m.map (fun p => p.1)
        · simp [h2, h]
        · simp only [h2, if_false]
          rw [List.nodup_append]
          exact ⟨h, List.nodup_singleton _, by simpa using h2⟩
      obtain ⟨h1, h2⟩ := ih (bumpCountry c.country m) hnd
      refine ⟨h1, fun k => ?_⟩
      rw [h2 k, hkeys]
      by_cases h2m : c.country ∈ m.map (fun p => p.1)
      · simp only [h2m, if_true, List.map_cons, List.mem_cons, ne_eq]
        constructor
        · rintro (h | ⟨hkna, hm⟩)
          · exact Or.inl h
          · exact Or.inr ⟨hkna, Or.inr hm⟩
        · rintro (h | ⟨hkna, rfl | hm⟩)
          · exact Or.inl h
          · exact Or.inl h2m
          · exact Or.inr ⟨hkna, hm⟩
      · simp only [h2m, if_false, List.mem_append, List.mem_singleton, List.map_cons,
          List.mem_cons, ne_eq]
        constructor
        · rintro ((h | hs) | ⟨hkna, hm⟩)
          · exact Or.inl h
          · rcases hs with rfl | hs
            · exact Or.inr ⟨hc, Or.inl rfl⟩
            · cases hs
          · exact Or.inr ⟨hkna, Or.inr hm⟩
        · rintro (h | ⟨hkna, rfl | hm⟩)
          · exact Or.inl (Or.inl h)
          · exact Or.inl (Or.inr (Or.inl rfl))
          · exact Or.inr ⟨hkna, hm⟩


/-- C10: implicit aggregate invariant.  The per-country counts of
`transformData` sum to the number of cleaned output records whose
country is not the sentinel, and the company set contains exactly the
distinct non-sentinel companies of the cleaned output — both
aggregates are functions of the records that survive deduplication,
so discarded duplicates contribute to neither. -/
theorem claim_aggregates (data : List Customer) :
    (((transformData data).countryCounts.map fun p => p.2).sum =
      ((transformData data).formattedData.filter fun c => c.country ≠ "N/A").length) ∧
    (transformData data).uniqueCompanies.Nodup ∧
    (∀ k, k ∈ (transformData data).uniqueCompanies ↔
      (k ≠ "N/A" ∧ k ∈ (transformData data).formattedData.map fun c => c.company)) := by
  rw [transformData_eq data]
  refine ⟨?_, ?_, ?_⟩
  · rw [foldl_addCountry_sum]
    simp
  · exact (foldl_addCompany_spec _ [] List.nodup_nil).1
  · intro k
    rw [(foldl_addCompany_spec _ [] List.nodup_nil).2 k]
    simp

theorem countryCounts_length (data : List Customer) :
    (transformData data).countryCounts.length =
      (((transformData data).formattedData.map fun c => c.country).filter
        (fun s => s ≠ "N/A")).dedup.length := by
  rw [transformData_eq]
  obtain ⟨h1, h2⟩ := foldl_addCountry_keys ((firstOccurrences data).map transformRecord)
    [] (by simp)
  have hlen : (((firstOccurrences data).map transformRecord).foldl
      (fun m c => addCountry m c.country) []).length =
      ((((firstOccurrences data).map transformRecord).foldl
      (fun m c => addCountry m c.country) []).map fun p => p.1).length := by
    simp
  rw [hlen]
  have hperm : ((((firstOccurrences data).map transformRecord).foldl
      (fun m c => addCountry m c.country) []).map fun p => p.1).Perm
      ((((firstOccurrences data).map transformRecord).map fun c => c.country).filter
        (fun s => s ≠ "N/A")).dedup := by
    rw [List.perm_ext_iff_of_nodup h1 (List.nodup_dedup _)]
    intro k
    rw [h2 k, List.mem_dedup, List.mem_filter]
    simp only [List.not_mem_nil, false_or, ne_eq, decide_not, Bool.not_eq_true,
      decide_eq_false_iff_not, Bool.not_eq_false, decide_eq_true_eq, Bool.not_eq_true']
    tauto
  simp [hperm.length_eq]

/-- C8: average per country.  `transformData` computes
`avgCustomersPerCountry` as the cleaned-record count divided by the
number of distinct non-sentinel countries of the cleaned output,
formatted to two decimals; 20 cleaned records across 5 distinct
countries give `"4.00"`; with no observed countries the result is the
conventional undefined value of JS division (`"Infinity"`, or `"NaN"`
on empty input) rather than a crash. -/
theorem claim_avg :
    (∀ data, (transformData data).avgCustomersPerCountry =
      divToFixed2 (transformData data).formattedData.length
        ((((transformData data).formattedData.map fun c => c.country).filter
          (fun s => s ≠ "N/A")).dedup.length)) ∧
    (transformData demo20).formattedData.length = 20 ∧
    ((((transformData demo20).formattedData.map fun c => c.country).filter
      (fun s => s ≠ "N/A")).dedup.length = 5) ∧
    (transformData demo20).avgCustomersPerCountry = "4.00" ∧
    (transformData [noCountryRec]).avgCustomersPerCountry = "Infinity" ∧
    (transformData []).avgCustomersPerCountry = "NaN" := by
  refine ⟨?_, by decide, by decide, by decide, by decide, by decide⟩
  intro data
  rw [← countryCounts_length data, transformData_eq data]
  simp


theorem normalizeDate_of_length_ne (s : String)
    (h : (splitOnChar '/' s.data).length ≠ 3) : normalizeDate s = s := by
  unfold normalizeDate
  split
  · rfl
  · generalize hL : (splitOnChar '/' s.data).map String.mk = L
    have hlen : L.length ≠ 3 := by
      rw [← hL]
      simpa using h
    rcases L with _ | ⟨a, _ | ⟨b, _ | ⟨c, _ | ⟨d, rest⟩⟩⟩⟩
    · rfl
    · rfl
    · rfl
    · exact absurd rfl hlen
    · rfl

/-- C3 (amended): phone cleaning.  For every non-duplicate record,
`transformData` strips from `Phone 1` and `Phone 2` every character
except digits and plus signs, keeping plus signs wherever they occur:
`"(757)324-8634"` becomes `"7573248634"`,
`"+1-213-212-0464x0742"` becomes `"+121321204640742"`, and the
sentinel `"N/A"` becomes the empty string. -/
theorem claim_phone_amended :
    (∀ data, (transformData data).formattedData = (firstOccurrences data).map transformRecord) ∧
    (∀ c, (transformRecord c).phone1 =
        String.mk (c.phone1.data.filter fun ch => ch.isDigit || ch = '+') ∧
      (transformRecord c).phone2 =
        String.mk (c.phone2.data.filter fun ch => ch.isDigit || ch = '+')) ∧
    cleanPhone "(757)324-8634" = "7573248634" ∧
    cleanPhone "+1-213-212-0464x0742" = "+121321204640742" ∧
    cleanPhone "N/A" = "" := by
  refine ⟨fun data => ?_, fun c => ⟨rfl, rfl⟩, by decide, by decide, by decide⟩
  rw [transformData_eq data]

/-- C3 counterexample: the sentinel phone `"N/A"` is not preserved —
the cleaning step strips all three of its characters and yields `""`;
moreover the claimed output for `"+1-213-212-0464x0742"` drops a
digit: the code produces `"+121321204640742"`. -/
theorem claim_phone_counterexample :
    phoneNARec.phone1 = "N/A" ∧
    ((transformData [phoneNARec]).formattedData.map fun c => c.phone1) = [""] ∧
    ("" = "N/A" → False) ∧
    cleanPhone "+1-213-212-0464x0742" = "+121321204640742" ∧
    ("+121321204640742" = "+12132120464742" → False) := by decide

/-- C6 (amended): date normalization.  For every non-duplicate
record, a non-sentinel `Subscription Date` that splits on `/` into
exactly three parts — numeric or not — is rewritten to
`part3-pad(part1)-pad(part2)` with zero-padding to two characters;
the sentinel and every value that does not split into exactly three
parts pass through unchanged; `"3/27/2020"` becomes `"2020-03-27"`. -/
theorem claim_date_amended :
    (∀ data, (transformData data).formattedData = (firstOccurrences data).map transformRecord) ∧
    (∀ c, c.subscriptionDate = "N/A" →
      (transformRecord c).subscriptionDate = c.subscriptionDate) ∧
    (∀ c m d y, c.subscriptionDate ≠ "N/A" →
      (splitOnChar '/' c.subscriptionDate.data).map String.mk = [m, d, y] →
      (transformRecord c).subscriptionDate = y ++ "-" ++ padStart2 m ++ "-" ++ padStart2 d) ∧
    (∀ c, (splitOnChar '/' c.subscriptionDate.data).length ≠ 3 →
      (transformRecord c).subscriptionDate = c.subscriptionDate) ∧
    normalizeDate "3/27/2020" = "2020-03-27" ∧
    normalizeDate "N/A" = "N/A" ∧
    normalizeDate "2020" = "2020" := by
  refine ⟨fun data => ?_, fun c hc => ?_, fun c m d y hna hsplit => ?_, fun c hc => ?_,
    by decide, by decide, by decide⟩
  · rw [transformData_eq data]
  · show normalizeDate c.subscriptionDate = c.subscriptionDate
    rw [hc]
    rfl
  · show normalizeDate c.subscriptionDate = _
    unfold normalizeDate
    rw [if_neg hna, hsplit]
  · exact normalizeDate_of_length_ne c.subscriptionDate hc

/-- C6 counterexample: the non-conforming value `"a/b/c"` (three
parts, none an integer) is not passed through unchanged — the code
rewrites it to `"c-0a-0b"`. -/
theorem claim_date_counterexample :
    dateABCRec.subscriptionDate = "a/b/c" ∧
    ((transformData [dateABCRec]).formattedData.map fun c => c.subscriptionDate) = ["c-0a-0b"] ∧
    ("c-0a-0b" = "a/b/c" → False) := by decide

/-- C7: email policy.  A record whose email fails the syntax check
keeps flowing through the pipeline with its email replaced by
`"Invalid Email - "` followed by the original value; a valid email
such as `"a@b.com"` is unchanged; an empty source email becomes the
sentinel `"N/A"` at extraction and `"Invalid Email - N/A"` after
transformation; emission never depends on email validity. -/
theorem claim_email_policy :
    isEmail "a@b.com" = true ∧
    fillMissing "" = "N/A" ∧
    isEmail "N/A" = false ∧
    (∀ c, isEmail c.email = false →
      (transformRecord c).email = "Invalid Email - " ++ c.email) ∧
    (∀ c, isEmail c.email = true → (transformRecord c).email = c.email) ∧
    (∀ data c, c ∈ firstOccurrences data →
      transformRecord c ∈ (transformData data).formattedData) ∧
    ((transformData (extractRows [rawNoEmailRec])).formattedData.map fun c => c.email) =
      ["Invalid Email - N/A"] ∧
    ((transformData [mkCust 0]).formattedData.map fun c => c.email) = ["a@b.com"] := by
  refine ⟨by decide, by decide, by decide, fun c h => ?_, fun c h => ?_,
    fun data c hc => ?_, by decide, by decide⟩
  · show (if isEmail c.email then c.email else "Invalid Email - " ++ c.email) = _
    rw [h]
    rfl
  · show (if isEmail c.email then c.email else "Invalid Email - " ++ c.email) = _
    rw [h]
    rfl
  · rw [transformData_eq data]
    exact List.mem_map_of_mem transformRecord hc


theorem except_bind_ok {α β : Type} {x : Except Unit α} {g : α → Except Unit β} {b : β}
    (h : x >>= g = Except.ok b) : ∃ a, x = Except.ok a ∧ g a = Except.ok b := by
  cases x with
  | error e => simp [Bind.bind, Except.bind] at h
  | ok a => exact ⟨a, rfl, by simpa [Bind.bind, Except.bind] using h⟩

theorem txStep_ok {fault : Fault} {f : DBState → DBState} {t t' : Tx}
    (h : txStep fault f t = Except.ok t') : t' = { db := f t.db, qn := t.qn + 1 } := by
  unfold txStep at h
  split at h
  · simp at h
  · injection h with h
    exact h.symm

theorem txRead_ok {α : Type} {fault : Fault} {g : DBState → α} {t : Tx} {pr : α × Tx}
    (h : txRead fault g t = Except.ok pr) :
    pr = (g t.db, { t with qn := t.qn + 1 }) := by
  unfold txRead at h
  split at h
  · simp at h
  · injection h with h
    exact h.symm

theorem foldlM_txStep_ok {α : Type} (fault : Fault) (g : List α → DBState → DBState) :
    ∀ (bs : List (List α)) (t t' : Tx),
      bs.foldlM (fun t b => txStep fault (fun db => g b db) t) t = Except.ok t' →
      t'.db = bs.foldl (fun db b => g b db) t.db := by
  intro bs
  induction bs with
  | nil =>
    intro t t' h
    simp only [List.foldlM_nil, pure, Except.pure] at h
    injection h with h
    rw [← h]
    rfl
  | cons b bs ih =>
    intro t t' h
    rw [List.foldlM_cons] at h
    obtain ⟨t1, h1, h2⟩ := except_bind_ok h
    rw [txStep_ok h1] at h2
    rw [List.foldl_cons]
    simpa using ih _ _ h2

theorem foldl_chunks_action {α : Type} (g : DBState → List α → DBState)
    (h1 : ∀ db, g db [] = db)
    (h2 : ∀ db a b, g (g db a) b = g db (a ++ b)) (data : List α) (db : DBState) :
    (chunks 1000 data).foldl g db = g db data := by
  have hj : (chunks 1000 data).flatten = data := chunks_flatten 1000 (by omega) data
  have key : ∀ (L : List (List α)) (db : DBState), L.foldl g db = g db L.flatten := by
    intro L
    induction L with
    | nil => intro db; simp [h1]
    | cons a L ih =>
      intro db
      rw [List.foldl_cons, ih, h2, List.flatten_cons]
  rw [key, hj]

theorem insertBatches_ok {α : Type} {fault : Fault} {ins : DBState → List α → DBState}
    {data : List α} {t t' : Tx}
    (h : insertBatches fault ins data t = Except.ok t')
    (h1 : ∀ db, ins db [] = db)
    (h2 : ∀ db a b, ins (ins db a) b = ins db (a ++ b)) :
    t'.db = ins t.db data := by
  unfold insertBatches at h
  have := foldlM_txStep_ok fault (fun b db => ins db b) (chunks 1000 data) t t' h
  rw [this]
  exact foldl_chunks_action ins h1 h2 data t.db


theorem loadDataTx_ok (fault : Fault) (input : TransformResult) (t t' : Tx)
    (h : loadDataTx fault input t = Except.ok t') : t'.db = applyLoad input t.db := by
  unfold loadDataTx at h
  by_cases hci : 0 < input.uniqueCompanies.length
  · simp only [if_pos hci] at h
    obtain ⟨t1, h1, h⟩ := except_bind_ok h
    rw [txStep_ok h1] at h
    obtain ⟨pr, h2, h⟩ := except_bind_ok h
    obtain ⟨cmap, t2⟩ := pr
    have hpr := txRead_ok h2
    rw [Prod.mk.injEq] at hpr
    obtain ⟨hcmap, ht2⟩ := hpr
    dsimp only [] at h
    rw [hcmap, ht2] at h
    obtain ⟨t3, h3, h⟩ := except_bind_ok h
    have ht3 := insertBatches_ok h3 (fun db => rfl)
      (fun db a b => by simp [List.foldl_append])
    obtain ⟨pr2, h4, h⟩ := except_bind_ok h
    obtain ⟨exIds, t4⟩ := pr2
    have hpr2 := txRead_ok h4
    rw [Prod.mk.injEq] at hpr2
    obtain ⟨hex, ht4⟩ := hpr2
    dsimp only [] at h
    rw [hex, ht4] at h
    obtain ⟨t5, h5, h⟩ := except_bind_ok h
    have ht5 := insertBatches_ok h5 (fun db => by simp) (fun db a b => by simp)
    obtain ⟨t6, h6, h⟩ := except_bind_ok h
    have ht6 := insertBatches_ok h6 (fun db => by simp) (fun db a b => by simp)
    obtain ⟨t7, h7, h⟩ := except_bind_ok h
    have ht7 := insertBatches_ok h7 (fun db => by simp) (fun db a b => by simp)
    obtain ⟨t8, h8, h⟩ := except_bind_ok h
    have ht8 := insertBatches_ok h8 (fun db => by simp) (fun db a b => by simp)
    rw [txStep_ok h]
    show t8.db = applyLoad input t.db
    rw [ht8, ht7, ht6, ht5, ht3]
    unfold applyLoad
    simp only [if_pos hci]
  · simp only [if_neg hci] at h
    obtain ⟨t1, h1, h⟩ := except_bind_ok h
    have ht1 : t1 = t := by
      simp only [pure, Except.pure] at h1
      injection h1 with h1
      exact h1.symm
    rw [ht1] at h
    obtain ⟨pr, h2, h⟩ := except_bind_ok h
    have hpr : pr = (([] : List (String × Nat)), t) := by
      simp only [pure, Except.pure] at h2
      injection h2 with h2
      exact h2.symm
    rw [hpr] at h
    dsimp only [] at h
    obtain ⟨t3, h3, h⟩ := except_bind_ok h
    have ht3 := insertBatches_ok h3 (fun db => rfl)
      (fun db a b => by simp [List.foldl_append])
    obtain ⟨pr2, h4, h⟩ := except_bind_ok h
    obtain ⟨exIds, t4⟩ := pr2
    have hpr2 := txRead_ok h4
    rw [Prod.mk.injEq] at hpr2
    obtain ⟨hex, ht4⟩ := hpr2
    dsimp only [] at h
    rw [hex, ht4] at h
    obtain ⟨t5, h5, h⟩ := except_bind_ok h
    have ht5 := insertBatches_ok h5 (fun db => by simp) (fun db a b => by simp)
    obtain ⟨t6, h6, h⟩ := except_bind_ok h
    have ht6 := insertBatches_ok h6 (fun db => by simp) (fun db a b => by simp)
    obtain ⟨t7, h7, h⟩ := except_bind_ok h
    have ht7 := insertBatches_ok h7 (fun db => by simp) (fun db a b => by simp)
    obtain ⟨t8, h8, h⟩ := except_bind_ok h
    have ht8 := insertBatches_ok h8 (fun db => by simp) (fun db a b => by simp)
    rw [txStep_ok h]
    show t8.db = applyLoad input t.db
    rw [ht8, ht7, ht6, ht5, ht3]
    unfold applyLoad
    simp only [if_neg hci]


theorem loadData_spec (fault : Fault) (input : TransformResult) (db : DBState) :
    loadData fault input db =
      (applyLoad input db,
        { success := true
          message := "Data loaded into database in batches"
          notified := none }) ∨
    loadData fault input db =
      (db, { success := false
             message := "Error loading data"
             notified := some "Loading" }) := by
  unfold loadData
  cases hx : loadDataTx fault input { db := db, qn := 0 } with
  | ok t =>
    left
    have := loadDataTx_ok fault input _ t hx
    simp only [this]
  | error e => right; rfl

/-- C1: atomicity of load.  Whenever `loadData` resolves with
`success = false` — that is, whenever any query of the transaction
threw — the store is exactly its initial state (all six tables, even
if customers had already been inserted inside the transaction), the
notification stage label is `Loading`, and the message is the failure
message. -/
theorem claim_load_atomicity (fault : Fault) (input : TransformResult) (db : DBState)
    (h : (loadData fault input db).2.success = false) :
    (loadData fault input db).1 = db ∧
    (loadData fault input db).2.notified = some "Loading" ∧
    (loadData fault input db).2.message = "Error loading data" := by
  rcases loadData_spec fault input db with hs | hs
  · rw [hs] at h
    simp at h
  · rw [hs]
    exact ⟨rfl, rfl, rfl⟩

/-- Witness for C1: a fault injected at the contacts insert (query 4,
after the customer batch insert at query 2) rolls the empty store
back unchanged, while the same run without faults inserts the
customer row. -/
theorem claim_load_atomicity_witness :
    ((loadData faultAt4 loadInput emptyDb).2.success = false) ∧
    (loadData faultAt4 loadInput emptyDb).1 = emptyDb ∧
    (loadData faultAt4 loadInput emptyDb).2.notified = some "Loading" ∧
    ((loadData noFault loadInput emptyDb).1.customers.length = 1) :=
  ⟨by decide, (claim_load_atomicity faultAt4 loadInput emptyDb (by decide)).1,
    (claim_load_atomicity faultAt4 loadInput emptyDb (by decide)).2.1, by decide⟩


theorem upsertCustomer_conflict (rows : List CustomerRow) (r : CustomerRow)
    (h : r.customer_id ∈ rows.map fun x => x.customer_id) :
    upsertCustomer rows r = rows.map fun x =>
      if x.customer_id = r.customer_id then { x with email := r.email } else x := by
  have hA : (rows.any fun x => x.customer_id = r.customer_id) = true := by
    rw [List.any_eq_true]
    obtain ⟨a, ha, hae⟩ := List.mem_map.1 h
    exact ⟨a, ha, by simp [hae]⟩
  unfold upsertCustomer
  simp only [hA, if_true]

theorem upsert_ids_nodup (rows : List CustomerRow) (r : CustomerRow)
    (h : (rows.map fun x => x.customer_id).Nodup) :
    ((upsertCustomer rows r).map fun x => x.customer_id).Nodup := by
  unfold upsertCustomer
  split
  · have heq : ((rows.map fun x =>
        if x.customer_id = r.customer_id then { x with email := r.email } else x).map
        fun x => x.customer_id) = rows.map fun x => x.customer_id := by
      rw [List.map_map]
      apply List.map_congr_left
      intro x _
      by_cases hxx : x.customer_id = r.customer_id <;> simp [hxx]
    rw [heq]
    exact h
  · split
    · have heq : ((rows.map fun x =>
          if x.email = r.email then { x with email := r.email } else x).map
          fun x => x.customer_id) = rows.map fun x => x.customer_id := by
        rw [List.map_map]
        apply List.map_congr_left
        intro x _
        by_cases hxx : x.email = r.email <;> simp [hxx]
      rw [heq]
      exact h
    · rename_i hpk _
      rw [List.map_append, List.nodup_append]
      refine ⟨h, by simp, ?_⟩
      intro id hid hmem
      simp only [List.map_cons, List.map_nil, List.mem_singleton] at hmem
      apply hpk
      rw [List.any_eq_true]
      obtain ⟨a, ha, hae⟩ := List.mem_map.1 hid
      exact ⟨a, ha, by simp [hae, hmem]⟩

theorem foldl_upsert_ids_nodup (rs : List CustomerRow) :
    ∀ rows, ((rows.map fun x => x.customer_id).Nodup) →
      (((rs.foldl upsertCustomer rows).map fun x => x.customer_id).Nodup) := by
  induction rs with
  | nil => intro rows h; exact h
  | cons r rs ih =>
    intro rows h
    rw [List.foldl_cons]
    exact ih _ (upsert_ids_nodup rows r h)

theorem insertCompanyIgnore_customers (db : DBState) (name : String) :
    (insertCompanyIgnore db name).customers = db.customers := by
  unfold insertCompanyIgnore
  split <;> rfl

theorem insertCompaniesIgnore_customers (names : List String) :
    ∀ db, (insertCompaniesIgnore names db).customers = db.customers := by
  induction names with
  | nil => intro db; rfl
  | cons n ns ih =>
    intro db
    show (insertCompaniesIgnore ns (insertCompanyIgnore db n)).customers = db.customers
    rw [ih, insertCompanyIgnore_customers]

theorem applyLoad_customers (input : TransformResult) (db : DBState) :
    (applyLoad input db).customers =
      (input.formattedData.map custRow).foldl upsertCustomer db.customers := by
  unfold applyLoad
  by_cases hci : 0 < input.uniqueCompanies.length
  · simp only [if_pos hci, insertCompaniesIgnore_customers]
  · simp only [if_neg hci]

/-- C9: customer upsert frame.  Inserting a customer row whose id
already exists updates only the email column of that unique row — all
other columns and rows are untouched and no row is added — and any
sequence of `loadData` runs (hence a re-run with the same cleaned
dataset) never produces two customer rows with the same id. -/
theorem claim_upsert_frame :
    (∀ rows r, r.customer_id ∈ (rows.map fun x => x.customer_id) →
      upsertCustomer rows r = (rows.map fun x =>
        if x.customer_id = r.customer_id then { x with email := r.email } else x) ∧
      (upsertCustomer rows r).length = rows.length) ∧
    (∀ fault input db, ((db.customers.map fun x => x.customer_id).Nodup) →
      (((loadData fault input db).1.customers.map fun x => x.customer_id).Nodup)) ∧
    (∀ fault1 fault2 input db, ((db.customers.map fun x => x.customer_id).Nodup) →
      ((((loadData fault2 input (loadData fault1 input db).1).1.customers.map
        fun x => x.customer_id).Nodup))) := by
  have base : ∀ fault input db, ((db.customers.map fun x => x.customer_id).Nodup) →
      (((loadData fault input db).1.customers.map fun x => x.customer_id).Nodup) := by
    intro fault input db h
    rcases loadData_spec fault input db with hs | hs <;> rw [hs]
    · dsimp only
      rw [applyLoad_customers]
      exact foldl_upsert_ids_nodup _ _ h
    · exact h
  refine ⟨?_, base, fun f1 f2 input db h => base _ _ _ (base _ _ _ h)⟩
  intro rows r h
  have hmap := upsertCustomer_conflict rows r h
  exact ⟨hmap, by rw [hmap]; simp⟩


theorem foldl_depStep (ex : List String) (cmap : List (String × Nat)) (l : List Customer) :
    ∀ d : Deps,
      l.foldl (depStep ex cmap) d =
        { contacts := d.contacts ++
            (l.flatMap fun c => if c.customerId ∈ ex then contactRows c else [])
          subscriptions := d.subscriptions ++
            (l.flatMap fun c => if c.customerId ∈ ex then subscriptionRows c else [])
          customerCompanies := d.customerCompanies ++
            (l.flatMap fun c => if c.customerId ∈ ex then companyLinkRows cmap c else [])
          websites := d.websites ++
            (l.flatMap fun c => if c.customerId ∈ ex then websiteRows c else []) } := by
  induction l with
  | nil => intro d; simp
  | cons c cs ih =>
    intro d
    rw [List.foldl_cons, ih]
    by_cases hc : c.customerId ∈ ex
    · have hstep : depStep ex cmap d c =
        { contacts := d.contacts ++ contactRows c
          subscriptions := d.subscriptions ++ subscriptionRows c
          customerCompanies := d.customerCompanies ++ companyLinkRows cmap c
          websites := d.websites ++ websiteRows c } := by
        simp [depStep, hc, contactRows, subscriptionRows, companyLinkRows, websiteRows,
          List.append_assoc]
      rw [hstep]
      simp [List.flatMap_cons, hc, List.append_assoc]
    · have hstep : depStep ex cmap d c = d := by
        simp [depStep, hc]
      rw [hstep]
      simp [List.flatMap_cons, hc]

theorem buildDependents_eq (ex : List String) (cmap : List (String × Nat))
    (l : List Customer) :
    buildDependents ex cmap l =
      { contacts := l.flatMap fun c => if c.customerId ∈ ex then contactRows c else []
        subscriptions := l.flatMap fun c => if c.customerId ∈ ex then subscriptionRows c else []
        customerCompanies :=
          l.flatMap fun c => if c.customerId ∈ ex then companyLinkRows cmap c else []
        websites := l.flatMap fun c => if c.customerId ∈ ex then websiteRows c else [] } := by
  unfold buildDependents
  rw [foldl_depStep]
  rfl


theorem contactRows_keys (c : Customer) : ∀ p ∈ contactRows c, p.1 = c.customerId := by
  intro p hp
  unfold contactRows at hp
  rcases List.mem_append.1 hp with hp | hp <;>
    [skip; skip] <;>
    · split at hp
      · simp only [List.mem_singleton] at hp
        rw [hp]
      · cases hp

theorem subscriptionRows_keys (c : Customer) : ∀ p ∈ subscriptionRows c, p.1 = c.customerId := by
  intro p hp
  unfold subscriptionRows at hp
  split at hp
  · simp only [List.mem_singleton] at hp
    rw [hp]
  · cases hp

theorem companyLinkRows_keys (cmap : List (String × Nat)) (c : Customer) :
    ∀ p ∈ companyLinkRows cmap c, p.1 = c.customerId := by
  intro p hp
  unfold companyLinkRows at hp
  split at hp
  · split at hp
    · simp only [List.mem_singleton] at hp
      rw [hp]
    · cases hp
  · cases hp

theorem websiteRows_keys (c : Customer) : ∀ p ∈ websiteRows c, p.1 = c.customerId := by
  intro p hp
  unfold websiteRows at hp
  split at hp
  · simp only [List.mem_singleton] at hp
    rw [hp]
  · cases hp

theorem flatMap_guard_keys {β : Type} (rows : Customer → List (String × β))
    (hrows : ∀ c p, p ∈ rows c → p.1 = c.customerId) (ex : List String)
    (l : List Customer) (id : String) (hid : id ∉ ex) :
    ∀ p ∈ l.flatMap (fun c => if c.customerId ∈ ex then rows c else []), p.1 ≠ id := by
  intro p hp
  rw [List.mem_flatMap] at hp
  obtain ⟨c, hc, hpc⟩ := hp
  by_cases hcx : c.customerId ∈ ex
  · rw [if_pos hcx] at hpc
    rw [hrows c p hpc]
    exact fun he => hid (he ▸ hcx)
  · rw [if_neg hcx] at hpc
    cases hpc

theorem flatMap_guard_filter {β : Type} (rows : Customer → List (String × β))
    (hrows : ∀ c p, p ∈ rows c → p.1 = c.customerId)
    (ex : List String) (l : List Customer) (c : Customer)
    (hc : c ∈ l) (hnd : (l.map fun x => x.customerId).Nodup) (hex : c.customerId ∈ ex) :
    ((l.flatMap fun x => if x.customerId ∈ ex then rows x else []).filter
      (fun p => p.1 = c.customerId)) = rows c := by
  induction l with
  | nil => cases hc
  | cons a as ih =>
    rw [List.flatMap_cons, List.filter_append]
    simp only [List.map_cons, List.nodup_cons] at hnd
    rcases List.mem_cons.1 hc with heq | hcas
    · subst heq
      have h1 : (if c.customerId ∈ ex then rows c else []).filter
          (fun p => p.1 = c.customerId) = rows c := by
        rw [if_pos hex]
        apply List.filter_eq_self.2
        intro p hp
        simp [hrows c p hp]
      have h2 : ((as.flatMap fun x => if x.customerId ∈ ex then rows x else []).filter
          (fun p => p.1 = c.customerId)) = [] := by
        apply List.filter_eq_nil_iff.2
        intro p hp
        rw [List.mem_flatMap] at hp
        obtain ⟨x, hx, hpx⟩ := hp
        by_cases hxe : x.customerId ∈ ex
        · rw [if_pos hxe] at hpx
          have hk := hrows x p hpx
          have hne : x.customerId ≠ c.customerId := fun he =>
            hnd.1 (he ▸ List.mem_map_of_mem (fun y => y.customerId) hx)
          simp [hk, hne]
        · rw [if_neg hxe] at hpx
          cases hpx
      rw [h1, h2, List.append_nil]
    · have h1 : (if a.customerId ∈ ex then rows a else []).filter
          (fun p => p.1 = c.customerId) = [] := by
        by_cases hae : a.customerId ∈ ex
        · rw [if_pos hae]
          apply List.filter_eq_nil_iff.2
          intro p hp
          have hk := hrows a p hp
          have hne : a.customerId ≠ c.customerId := fun he =>
            hnd.1 (he ▸ List.mem_map_of_mem (fun y => y.customerId) hcas)
          simp [hk, hne]
        · rw [if_neg hae]
          rfl
      rw [h1, ih hcas hnd.2, List.nil_append]


/-- C5 (amended): referential safety of the loader.  A cleaned
record whose id is absent from the re-queried membership set
contributes no dependent row in any of the four dependent tables; for
an accepted record the built rows are exactly: one contact per
non-sentinel phone, one subscription if the date is non-sentinel, one
company link if the company is non-sentinel and a key of the company
id map, one website if non-sentinel. -/
theorem claim_referential_safety (ex : List String) (cmap : List (String × Nat))
    (l : List Customer) :
    (∀ id, id ∉ ex →
      (∀ p ∈ (buildDependents ex cmap l).contacts, p.1 ≠ id) ∧
      (∀ p ∈ (buildDependents ex cmap l).subscriptions, p.1 ≠ id) ∧
      (∀ p ∈ (buildDependents ex cmap l).customerCompanies, p.1 ≠ id) ∧
      (∀ p ∈ (buildDependents ex cmap l).websites, p.1 ≠ id)) ∧
    (∀ c, c ∈ l → ((l.map fun x => x.customerId).Nodup) → c.customerId ∈ ex →
      ((buildDependents ex cmap l).contacts.filter (fun p => p.1 = c.customerId) =
        contactRows c) ∧
      ((buildDependents ex cmap l).subscriptions.filter (fun p => p.1 = c.customerId) =
        subscriptionRows c) ∧
      ((buildDependents ex cmap l).customerCompanies.filter (fun p => p.1 = c.customerId) =
        companyLinkRows cmap c) ∧
      ((buildDependents ex cmap l).websites.filter (fun p => p.1 = c.customerId) =
        websiteRows c)) := by
  rw [buildDependents_eq]
  constructor
  · intro id hid
    exact ⟨flatMap_guard_keys _ contactRows_keys ex l id hid,
      flatMap_guard_keys _ subscriptionRows_keys ex l id hid,
      flatMap_guard_keys _ (companyLinkRows_keys cmap) ex l id hid,
      flatMap_guard_keys _ websiteRows_keys ex l id hid⟩
  · intro c hcl hnd hex
    exact ⟨flatMap_guard_filter _ contactRows_keys ex l c hcl hnd hex,
      flatMap_guard_filter _ subscriptionRows_keys ex l c hcl hnd hex,
      flatMap_guard_filter _ (companyLinkRows_keys cmap) ex l c hcl hnd hex,
      flatMap_guard_filter _ websiteRows_keys ex l c hcl hnd hex⟩

/-- C5 counterexample: an accepted record whose company is the
sentinel `"N/A"` gets no company link even when `"N/A"` is a key of
the company id map — the code requires `company !== 'N/A'` in
addition to map membership, which the claim omits. -/
theorem claim_referential_counterexample :
    cexCompanyRec.customerId ∈ cexIds ∧
    cexMap.lookup cexCompanyRec.company = some 7 ∧
    (buildDependents cexIds cexMap [cexCompanyRec]).customerCompanies = [] := by
  decide

/-- Witness for C5 (amended): an id outside the membership set gets
no contact rows, and an accepted record with a company known to the
map gets exactly its one company link. -/
theorem claim_referential_safety_witness :
    ("ZZ" ∉ cexIds) ∧
    (∀ p ∈ (buildDependents cexIds cexMap [cexCompanyRec]).contacts, p.1 ≠ "ZZ") ∧
    (loadRec.customerId ∈ cexIds) ∧
    ((buildDependents cexIds cexMap [loadRec]).customerCompanies.filter
      (fun p => p.1 = loadRec.customerId) = companyLinkRows cexMap loadRec) :=
  ⟨by decide,
   ((claim_referential_safety cexIds cexMap [cexCompanyRec]).1 "ZZ" (by decide)).1,
   by decide,
   ((claim_referential_safety cexIds cexMap [loadRec]).2 loadRec (by decide) (by decide)
     (by decide)).2.2.1⟩

/-- Witness for C4: chunk size 3 on the 20-record dataset gives the
same transform result as a single chunk. -/
theorem claim_chunking_witness :
    0 < 3 ∧ transformDataWith 3 demo20 = transformDataSingle demo20 :=
  ⟨by decide, transform_chunking 3 demo20 (by decide)⟩

/-- Witness for C6 (amended): the record dated `"3/27/2020"` is
normalized to `"2020-03-27"`. -/
theorem claim_date_amended_witness :
    (dateGoodRec.subscriptionDate = "N/A" → False) ∧
    (transformRecord dateGoodRec).subscriptionDate = "2020-03-27" :=
  ⟨by decide,
   (claim_date_amended.2.2.1 dateGoodRec "3" "27" "2020" (by decide) (by decide)).trans
     (by decide)⟩

/-- Witness for C7: the extracted empty email (sentinel `"N/A"` in
the fixture lineage, here the raw `""`) is tagged invalid, and a
surviving record is emitted into the cleaned output. -/
theorem claim_email_policy_witness :
    isEmail rawNoEmailRec.email = false ∧
    (transformRecord rawNoEmailRec).email = "Invalid Email - " ++ rawNoEmailRec.email ∧
    (mkCust 0 ∈ firstOccurrences [mkCust 0]) ∧
    transformRecord (mkCust 0) ∈ (transformData [mkCust 0]).formattedData :=
  ⟨by decide,
   claim_email_policy.2.2.2.1 rawNoEmailRec (by decide),
   by decide,
   claim_email_policy.2.2.2.2.2.1 [mkCust 0] (mkCust 0) (by decide)⟩

/-- Witness for C9: upserting the same customer id with a new email
into a one-row table only rewrites the email, and a fault-free load
into the empty store keeps customer ids duplicate-free. -/
theorem claim_upsert_frame_witness :
    (rerunRow.customer_id ∈ ([custRow loadRec].map fun x => x.customer_id)) ∧
    upsertCustomer [custRow loadRec] rerunRow =
      ([custRow loadRec].map fun x =>
        if x.customer_id = rerunRow.customer_id then { x with email := rerunRow.email }
        else x) ∧
    ((emptyDb.customers.map fun x => x.customer_id).Nodup) ∧
    (((loadData noFault loadInput emptyDb).1.customers.map fun x => x.customer_id).Nodup) :=
  ⟨by decide,
   (claim_upsert_frame.1 [custRow loadRec] rerunRow (by decide)).1,
   by decide,
   claim_upsert_frame.2.1 noFault loadInput emptyDb (by decide)⟩

end ETL
